import Mathlib

/-!
Verification of the segment-planning and language-detection logic of the
whisperx prediction wrapper (`src/predict.py`).

The planner `distribute_segments_equally` and the recursive detector
`detect_language` are embedded shallowly: durations and offsets are `Int`
(milliseconds, Python ints), Python's floor division `//` is `Int.fdiv`,
detection probabilities are `ℚ`, and the language-identification inference
call is an oracle `Int → String × ℚ` mapping a window's start offset to the
`(language, probability)` pair the model reports for that audio slice.
The Python list indexing `segments_starts[iteration - 1]`, which can raise
`IndexError`, is modelled by `List.get?`, with `none` as the error outcome.
-/

/-- Result dictionary returned by `detect_language`
(`{"language": ..., "probability": ..., "iterations": ...}`). -/
structure DetectionResult where
  language : String
  probability : ℚ
  iterations : Nat
deriving Repr, DecidableEq

/-- Embedding of `distribute_segments_equally(total_duration,
segments_duration, iterations)`
from `src/predict.py`: available span, floor-divided spacing (0 when
`iterations ≤ 1`), offsets `i * spacing`, and the final offset overwritten with
`total_duration - segments_duration` when `iterations > 1`.  Python's
`range(iterations)` is empty for non-positive `iterations`, hence
`List.range iterations.toNat`; `start_times[-1] = ...` on the nonempty list is
`List.set` at the last position. -/
def distribute_segments_equally (total_duration segments_duration : Int)
    (iterations : Int) : List Int :=
  let available_duration := total_duration - segments_duration
  let spacing := if 1 < iterations then available_duration.fdiv (iterations - 1) else 0
  let start_times := (List.range iterations.toNat).map (fun (i : Nat) => (i : Int) * spacing)
  if 1 < iterations then
    start_times.set (start_times.length - 1) (total_duration - segments_duration)
  else
    start_times

/-- Embedding of `detect_language` from `src/predict.py`.  Each call looks up
`segments_starts[iteration - 1]` (`none` models the `IndexError` when the list
is too short), runs the language-identification inference on the 30 s slice at
that offset (the `oracle`), and returns the result when
`language_probability >= language_detection_min_prob` or
`iteration >= language_detection_max_tries`; otherwise it recurses with
`iteration + 1`. -/
def detect_language (segments_starts : List Int) (oracle : Int → String × ℚ)
    (language_detection_min_prob : ℚ) (language_detection_max_tries : Int)
    (iteration : Nat) : Option DetectionResult :=
  match segments_starts.get? (iteration - 1) with
  | none => none
  | some start_ms =>
    let language := (oracle start_ms).1
    let language_probability := (oracle start_ms).2
    if language_detection_min_prob ≤ language_probability ∨
        language_detection_max_tries ≤ (iteration : Int) then
      some ⟨language, language_probability, iteration⟩
    else
      detect_language segments_starts oracle language_detection_min_prob
        language_detection_max_tries (iteration + 1)
termination_by (language_detection_max_tries + 1 - (iteration : Int)).toNat
decreasing_by
  rename_i hcond
  push_neg at hcond
  omega

/-- The `(language, probability)` pair the detector observes at iteration `k`:
the oracle applied to `segments_starts[k - 1]`. -/
def windowPair (segments_starts : List Int) (oracle : Int → String × ℚ)
    (k : Nat) : String × ℚ :=
  oracle ((segments_starts.get? (k - 1)).getD 0)

/-- The stopping condition of `detect_language` at iteration `k`:
the window's probability meets the threshold, or the iteration budget is
reached. -/
def accepts (segments_starts : List Int) (oracle : Int → String × ℚ)
    (language_detection_min_prob : ℚ) (language_detection_max_tries : Int)
    (k : Nat) : Prop :=
  language_detection_min_prob ≤ (windowPair segments_starts oracle k).2 ∨
    language_detection_max_tries ≤ (k : Int)

instance (segments_starts : List Int) (oracle : Int → String × ℚ)
    (p : ℚ) (m : Int) (k : Nat) :
    Decidable (accepts segments_starts oracle p m k) := by
  unfold accepts; infer_instance

/-- The language-detection path of `predict` (`src/predict.py`, the
`language is None` branch): the user-supplied try count is clamped to
`min(language_detection_max_tries, floor(audio_duration / 30000))`; the clamped
value is handed to `distribute_segments_equally` as its iteration count and to
`detect_language` as its `language_detection_max_tries`, which starts at
iteration 1. -/
def predict_language_detection (oracle : Int → String × ℚ)
    (language_detection_min_prob : ℚ) (language_detection_max_tries : Int)
    (audio_duration : Int) : Option DetectionResult :=
  let segments_duration_ms : Int := 30000
  let clamped_tries := min language_detection_max_tries
    (audio_duration.fdiv segments_duration_ms)
  let segments_starts := distribute_segments_equally audio_duration
    segments_duration_ms clamped_tries
  detect_language segments_starts oracle language_detection_min_prob clamped_tries 1

/-- The post-transcription stage selection of `predict`
(`src/predict.py` lines 158–162): when the detected language has a supported
alignment model, run `align` if `align_output` was requested, else run
`diarize` if `diarization` was requested; in every other case the transcription
`result` passes through unmodified.  `alignFn` and `diarizeFn` abstract the
external `align`/`diarize` calls. -/
def post_transcribe {α : Type} (language_supported align_output diarization : Bool)
    (alignFn diarizeFn : α → α) (result : α) : α :=
  if language_supported then
    if align_output then alignFn result
    else if diarization then diarizeFn result
    else result
  else result

/-! ### Planner lemmas -/

/-- When `1 < iterations`, the planner's output is the mapped range without its
final raw offset, followed by the forced final offset
`total_duration - segments_duration`. -/
lemma distribute_segments_equally_eq_append {t s it : Int} (h : 1 < it) :
    distribute_segments_equally t s it =
      ((List.range (it.toNat - 1)).map fun (i : Nat) =>
        (i : Int) * (t - s).fdiv (it - 1)) ++ [t - s] := by
  have hn : 2 ≤ it.toNat := by omega
  unfold distribute_segments_equally
  rw [if_pos h, if_pos h]
  rw [List.set_eq_take_cons_drop _ (by rw [List.length_map, List.length_range]; omega)]
  rw [List.length_map, List.length_range, ← List.map_take, List.take_range]
  rw [List.drop_eq_nil_of_le (by rw [List.length_map, List.length_range]; omega)]
  rw [inf_eq_left.mpr (by omega : it.toNat - 1 ≤ it.toNat)]

/-- The floor-divided spacing is non-negative when the audio is at least one
segment long. -/
lemma spacing_nonneg {t s it : Int} (hts : s ≤ t) (h : 1 < it) :
    0 ≤ (t - s).fdiv (it - 1) :=
  Int.fdiv_nonneg (by omega) (by omega)

/-- Raw offsets `i * spacing` with `i ≤ iterations - 1` stay within the
available span `t - s`. -/
lemma mul_spacing_le {t s it : Int} (hts : s ≤ t) (h : 1 < it) {i : Nat}
    (hi : (i : Int) ≤ it - 1) :
    (i : Int) * (t - s).fdiv (it - 1) ≤ t - s := by
  have h0 : 0 ≤ (t - s).fdiv (it - 1) := spacing_nonneg hts h
  have h1 : (i : Int) * (t - s).fdiv (it - 1) ≤ (it - 1) * ((t - s).fdiv (it - 1)) :=
    mul_le_mul_of_nonneg_right hi h0
  have h2 : (it - 1) * ((t - s).fdiv (it - 1)) ≤ t - s := by
    rw [Int.fdiv_eq_ediv _ (by omega : (0:Int) ≤ it - 1), mul_comm]
    exact Int.ediv_mul_le _ (by omega)
  omega

/-- C2: for `total_duration ≥ segments_duration`, the planner returns `[0]`
when `iterations = 1`; when `iterations > 1` its last element is
`total_duration - segments_duration` and every element lies within
`[0, total_duration - segments_duration]`. -/
theorem distribute_segments_equally_range_bounds (t s it : Int) (hts : s ≤ t) :
    (it = 1 → distribute_segments_equally t s it = [0]) ∧
    (1 < it →
      (distribute_segments_equally t s it).getLast? = some (t - s) ∧
      ∀ x ∈ distribute_segments_equally t s it, 0 ≤ x ∧ x ≤ t - s) := by
  constructor
  · rintro rfl; rfl
  · intro h1
    have h0 : 0 ≤ (t - s).fdiv (it - 1) := spacing_nonneg hts h1
    rw [distribute_segments_equally_eq_append h1]
    refine ⟨List.getLast?_concat _, ?_⟩
    intro x hx
    rcases List.mem_append.mp hx with hx | hx
    · obtain ⟨i, hi, rfl⟩ := List.mem_map.mp hx
      rw [List.mem_range] at hi
      exact ⟨mul_nonneg (Int.natCast_nonneg i) h0, mul_spacing_le hts h1 (by omega)⟩
    · simp only [List.mem_singleton] at hx
      subst hx
      exact ⟨by omega, le_refl _⟩

/-- Witness for C2 at `plan(100000, 30000, 3)`. -/
theorem distribute_segments_equally_range_bounds_witness :
    (distribute_segments_equally 100000 30000 3).getLast? =
      some ((100000 : Int) - 30000) :=
  ((distribute_segments_equally_range_bounds 100000 30000 3 (by norm_num)).2
    (by norm_num)).1

/-- C3: for `iterations > 1` the planner computes the floor-divided spacing
`(t - s).fdiv (iterations - 1)`, produces offsets `i * spacing`, and overwrites
the final offset with `t - s`; concretely
`plan(100000, 30000, 3) = [0, 35000, 70000]`. -/
theorem distribute_segments_equally_formula :
    (∀ t s it : Int, 1 < it →
      distribute_segments_equally t s it =
        ((List.range it.toNat).map fun (i : Nat) =>
          (i : Int) * (t - s).fdiv (it - 1)).set (it.toNat - 1) (t - s)) ∧
    distribute_segments_equally 100000 30000 3 = [0, 35000, 70000] := by
  constructor
  · intro t s it h
    unfold distribute_segments_equally
    rw [if_pos h, if_pos h, List.length_map, List.length_range]
  · rfl

/-- Witness for C3 at `plan(100000, 30000, 3)`. -/
theorem distribute_segments_equally_formula_witness :
    distribute_segments_equally 100000 30000 3 =
      ((List.range (3 : Int).toNat).map fun (i : Nat) =>
        (i : Int) * ((100000 : Int) - 30000).fdiv (3 - 1)).set
        ((3 : Int).toNat - 1) ((100000 : Int) - 30000) :=
  distribute_segments_equally_formula.1 100000 30000 3 (by norm_num)

/-- C5: for `total_duration ≥ segments_duration` and `iterations ≥ 1`, the
planner's output has length `iterations`, every element is non-negative, and
the sequence is monotonically non-decreasing. -/
theorem distribute_segments_equally_invariants (t s it : Int)
    (hts : s ≤ t) (hit : 1 ≤ it) :
    (distribute_segments_equally t s it).length = it.toNat ∧
    (∀ x ∈ distribute_segments_equally t s it, 0 ≤ x) ∧
    (distribute_segments_equally t s it).Pairwise (· ≤ ·) := by
  rcases eq_or_lt_of_le hit with h1 | h1
  · have e : distribute_segments_equally t s it = [0] := by rw [← h1]; rfl
    refine ⟨?_, ?_, ?_⟩ <;> simp [e]
    omega
  · have h0 : 0 ≤ (t - s).fdiv (it - 1) := spacing_nonneg hts h1
    rw [distribute_segments_equally_eq_append h1]
    refine ⟨?_, ?_, ?_⟩
    · rw [List.length_append, List.length_map, List.length_range]
      simp; omega
    · intro x hx
      rcases List.mem_append.mp hx with hx | hx
      · obtain ⟨i, hi, rfl⟩ := List.mem_map.mp hx
        exact mul_nonneg (Int.natCast_nonneg i) h0
      · simp only [List.mem_singleton] at hx
        omega
    · rw [List.pairwise_append]
      refine ⟨?_, by simp, ?_⟩
      · rw [List.pairwise_map]
        refine List.Pairwise.imp ?_ (List.pairwise_lt_range _)
        intro a b hab
        exact mul_le_mul_of_nonneg_right (by exact_mod_cast Nat.le_of_lt hab) h0
      · intro a ha b hb
        obtain ⟨i, hi, rfl⟩ := List.mem_map.mp ha
        simp only [List.mem_singleton] at hb
        subst hb
        refine mul_spacing_le hts h1 ?_
        rw [List.mem_range] at hi
        omega

/-- Witness for C5 at `plan(100000, 30000, 3)`. -/
theorem distribute_segments_equally_invariants_witness :
    (distribute_segments_equally 100000 30000 3).length = (3 : Int).toNat ∧
    (distribute_segments_equally 100000 30000 3).Pairwise (· ≤ ·) :=
  ⟨(distribute_segments_equally_invariants 100000 30000 3 (by norm_num)
      (by norm_num)).1,
   (distribute_segments_equally_invariants 100000 30000 3 (by norm_num)
      (by norm_num)).2.2⟩

/-! ### Detector lemmas -/

/-- When the offset list is too short, the detector's lookup
`segments_starts[iteration - 1]` fails: the run aborts (the Python
`IndexError`). -/
lemma detect_language_none (starts : List Int) (oracle : Int → String × ℚ)
    (p : ℚ) (m : Int) (it : Nat) (hs : starts.get? (it - 1) = none) :
    detect_language starts oracle p m it = none := by
  rw [detect_language, hs]

/-- One unfolding step of `detect_language` when the offset lookup succeeds. -/
lemma detect_language_step (starts : List Int) (oracle : Int → String × ℚ)
    (p : ℚ) (m : Int) (it : Nat) (s : Int) (hs : starts.get? (it - 1) = some s) :
    detect_language starts oracle p m it =
      if p ≤ (oracle s).2 ∨ m ≤ (it : Int) then
        some ⟨(oracle s).1, (oracle s).2, it⟩
      else detect_language starts oracle p m (it + 1) := by
  rw [detect_language, hs]

/-- An offset list of length at least `it ≥ 1` has an entry at `it - 1`. -/
lemma get_some_of_lt (starts : List Int) (it : Nat) (h1 : 1 ≤ it)
    (hl : it ≤ starts.length) :
    ∃ s, starts.get? (it - 1) = some s := by
  have : it - 1 < starts.length := by omega
  exact ⟨starts.get ⟨it - 1, this⟩, List.get?_eq_get this⟩

/-- Full characterisation of a detector run started at `it`, by induction on
the remaining iteration budget: the run returns the window pair of the first
iteration `k ≥ it` at which `accepts` holds, together with `k`, and no earlier
iteration accepts. -/
lemma detect_language_spec_aux (starts : List Int) (oracle : Int → String × ℚ)
    (p : ℚ) (m : Int) :
    ∀ (fuel it : Nat), (m - it).toNat ≤ fuel → 1 ≤ it → (it : Int) ≤ m →
      m ≤ (starts.length : Int) →
      ∃ r : DetectionResult,
        detect_language starts oracle p m it = some r ∧
        it ≤ r.iterations ∧ (r.iterations : Int) ≤ m ∧
        accepts starts oracle p m r.iterations ∧
        (∀ j, it ≤ j → j < r.iterations → ¬ accepts starts oracle p m j) ∧
        r = ⟨(windowPair starts oracle r.iterations).1,
             (windowPair starts oracle r.iterations).2, r.iterations⟩ := by
  intro fuel
  induction fuel with
  | zero =>
    intro it hf h1 hm hl
    obtain ⟨s, hs⟩ := get_some_of_lt starts it h1 (by omega)
    have hwp : windowPair starts oracle it = oracle s := by
      rw [windowPair, hs]; rfl
    refine ⟨⟨(oracle s).1, (oracle s).2, it⟩, ?_, le_refl _, by dsimp only; omega,
      Or.inr (by dsimp only; omega), by intro j hj1 hj2; dsimp only at hj2; omega,
      by dsimp only; rw [hwp]⟩
    rw [detect_language_step starts oracle p m it s hs,
      if_pos (Or.inr (by omega))]
  | succ n ih =>
    intro it hf h1 hm hl
    obtain ⟨s, hs⟩ := get_some_of_lt starts it h1 (by omega)
    have hwp : windowPair starts oracle it = oracle s := by
      rw [windowPair, hs]; rfl
    rw [detect_language_step starts oracle p m it s hs]
    by_cases hacc : p ≤ (oracle s).2 ∨ m ≤ (it : Int)
    · refine ⟨⟨(oracle s).1, (oracle s).2, it⟩, by rw [if_pos hacc], le_refl _,
        by dsimp only; omega, ?_,
        by intro j hj1 hj2; dsimp only at hj2; omega, by dsimp only; rw [hwp]⟩
      unfold accepts
      dsimp only
      rw [hwp]
      exact hacc
    · have hlt : (it : Int) < m := by
        push_neg at hacc
        exact hacc.2
      obtain ⟨r, hr, hr1, hr2, hr3, hr4, hr5⟩ :=
        ih (it + 1) (by omega) (by omega) (by omega) hl
      refine ⟨r, by rw [if_neg hacc]; exact hr, by omega, hr2, hr3, ?_, hr5⟩
      intro j hj1 hj2
      rcases Nat.eq_or_lt_of_le hj1 with rfl | hj
      · unfold accepts
        rw [hwp]
        exact hacc
      · exact hr4 j hj hj2

/-- C1: with an offset list of length at least `max_tries ≥ 1`, the detector
started at iteration 1 returns at the first iteration `k` at which the
probability meets the threshold or the budget is reached, and the returned
result is exactly that iteration's `(language, probability)` pair together
with `k`; no earlier iteration accepted, and nothing from earlier iterations
is retained. -/
theorem detect_language_first_acceptable (starts : List Int)
    (oracle : Int → String × ℚ) (p : ℚ) (m : Int)
    (hm : 1 ≤ m) (hl : m ≤ (starts.length : Int)) :
    ∃ k : Nat, 1 ≤ k ∧ (k : Int) ≤ m ∧
      detect_language starts oracle p m 1 =
        some ⟨(windowPair starts oracle k).1, (windowPair starts oracle k).2, k⟩ ∧
      accepts starts oracle p m k ∧
      (∀ j, 1 ≤ j → j < k → ¬ accepts starts oracle p m j) := by
  obtain ⟨r, hr, hr1, hr2, hr3, hr4, hr5⟩ :=
    detect_language_spec_aux starts oracle p m (m - 1).toNat 1 (by omega)
      (le_refl _) (by omega) hl
  exact ⟨r.iterations, hr1, hr2, by rw [← hr5]; exact hr, hr3, hr4⟩

/-- The concrete oracle of the spec's detector test: per-window pairs
`("en", 0.3)`, `("en", 0.6)`, `("fr", 0.9)` at offsets 0, 1, 2. -/
def exampleOracle : Int → String × ℚ := fun s =>
  if s = 0 then ("en", 3/10) else if s = 1 then ("en", 6/10) else ("fr", 9/10)

/-- Witness for C1: on the three-window example with threshold 1/2 and budget
3, a stopping iteration exists with the stated properties. -/
theorem detect_language_first_acceptable_witness :
    ∃ k : Nat, 1 ≤ k ∧ (k : Int) ≤ 3 ∧
      detect_language [0, 1, 2] exampleOracle (1/2) 3 1 =
        some ⟨(windowPair [0, 1, 2] exampleOracle k).1,
          (windowPair [0, 1, 2] exampleOracle k).2, k⟩ ∧
      accepts [0, 1, 2] exampleOracle (1/2) 3 k ∧
      (∀ j, 1 ≤ j → j < k → ¬ accepts [0, 1, 2] exampleOracle (1/2) 3 j) :=
  detect_language_first_acceptable [0, 1, 2] exampleOracle (1/2) 3
    (by decide) (by decide)

/-- C8: with an offset list of length at least `max_tries ≥ 1` and an
arbitrary (total) oracle, the detector terminates with a result whose
consumed iteration count is between 1 and `max_tries`, even if no window ever
meets the threshold. -/
theorem detect_language_bounded (starts : List Int)
    (oracle : Int → String × ℚ) (p : ℚ) (m : Int)
    (hm : 1 ≤ m) (hl : m ≤ (starts.length : Int)) :
    ∃ r : DetectionResult, detect_language starts oracle p m 1 = some r ∧
      1 ≤ r.iterations ∧ (r.iterations : Int) ≤ m := by
  obtain ⟨r, hr, hr1, hr2, _, _, _⟩ :=
    detect_language_spec_aux starts oracle p m (m - 1).toNat 1 (by omega)
      (le_refl _) (by omega) hl
  exact ⟨r, hr, hr1, hr2⟩

/-- Witness for C8: with an unreachable threshold 2 the run still terminates
within the budget of 3 iterations. -/
theorem detect_language_bounded_witness :
    ∃ r : DetectionResult,
      detect_language [0, 1, 2] exampleOracle 2 3 1 = some r ∧
      1 ≤ r.iterations ∧ (r.iterations : Int) ≤ 3 :=
  detect_language_bounded [0, 1, 2] exampleOracle 2 3 (by decide) (by decide)

/-- C4: on the per-iteration pairs `("en",0.3), ("en",0.6), ("fr",0.9)`, the
detector with threshold 0.5 and budget 5 stops at iteration 2 with
`("en", 0.6)`, and with threshold 0.95 and budget 3 it exhausts the budget and
returns `("fr", 0.9)` at iteration 3. -/
theorem detect_language_concrete_runs :
    detect_language [0, 1, 2] exampleOracle (1/2) 5 1 = some ⟨"en", 6/10, 2⟩ ∧
    detect_language [0, 1, 2] exampleOracle (19/20) 3 1 = some ⟨"fr", 9/10, 3⟩ := by
  constructor
  · rw [detect_language_step [0, 1, 2] exampleOracle (1/2) 5 1 0 rfl,
      if_neg (by norm_num [exampleOracle]),
      detect_language_step [0, 1, 2] exampleOracle (1/2) 5 2 1 rfl,
      if_pos (by norm_num [exampleOracle])]
    norm_num [exampleOracle]
  · rw [detect_language_step [0, 1, 2] exampleOracle (19/20) 3 1 0 rfl,
      if_neg (by norm_num [exampleOracle]),
      detect_language_step [0, 1, 2] exampleOracle (19/20) 3 2 1 rfl,
      if_neg (by norm_num [exampleOracle]),
      detect_language_step [0, 1, 2] exampleOracle (19/20) 3 3 2 rfl,
      if_pos (by norm_num)]
    norm_num [exampleOracle]

/-! ### Orchestrator claims -/

/-- C6: when `language` is absent, `predict` clamps the try count to
`min(language_detection_max_tries, floor(audio_duration / 30000))` and hands
the clamped value both to `distribute_segments_equally` as its iteration count
and to `detect_language` as its iteration budget. -/
theorem predict_language_detection_clamped (oracle : Int → String × ℚ)
    (p : ℚ) (user dur : Int) :
    predict_language_detection oracle p user dur =
      detect_language
        (distribute_segments_equally dur 30000 (min user (dur.fdiv 30000)))
        oracle p (min user (dur.fdiv 30000)) 1 := rfl

/-- C10: with audio shorter than one 30 s segment and a non-negative
user-supplied try count, the clamped try count is 0, the planner returns the
empty offset list, and the detector's first lookup fails: the prediction
aborts (`none`, the Python `IndexError`) instead of returning a result. -/
theorem predict_language_detection_short_audio (oracle : Int → String × ℚ)
    (p : ℚ) (user dur : Int) (h0 : 0 ≤ dur) (h1 : dur < 30000) (hu : 0 ≤ user) :
    min user (dur.fdiv 30000) = 0 ∧
    distribute_segments_equally dur 30000 (min user (dur.fdiv 30000)) = [] ∧
    predict_language_detection oracle p user dur = none := by
  have hf : dur.fdiv 30000 = 0 := by
    rw [Int.fdiv_eq_ediv _ (by norm_num)]
    exact Int.ediv_eq_zero_of_lt h0 h1
  have hmin : min user (dur.fdiv 30000) = 0 := by
    rw [hf]
    exact min_eq_right hu
  refine ⟨hmin, by rw [hmin]; rfl, ?_⟩
  show detect_language
      (distribute_segments_equally dur 30000 (min user (dur.fdiv 30000)))
      oracle p (min user (dur.fdiv 30000)) 1 = none
  rw [hmin]
  exact detect_language_none _ oracle p 0 1 rfl

/-- Witness for C10 at a 10 s file with the default 5 tries. -/
theorem predict_language_detection_short_audio_witness :
    min (5 : Int) ((10000 : Int).fdiv 30000) = 0 ∧
    distribute_segments_equally 10000 30000
      (min (5 : Int) ((10000 : Int).fdiv 30000)) = [] ∧
    predict_language_detection exampleOracle 0 5 10000 = none :=
  predict_language_detection_short_audio exampleOracle 0 5 10000
    (by decide) (by decide) (by decide)

/-- C7: the post-transcription stages are mutually exclusive: `align` runs
exactly when the detected language is supported and `align_output` was
requested; `diarize` runs exactly when the language is supported, alignment
was not requested, and `diarization` was requested; otherwise the
transcription result passes through unmodified. -/
theorem post_transcribe_exclusive {α : Type}
    (language_supported align_output diarization : Bool)
    (alignFn diarizeFn : α → α) (result : α) :
    post_transcribe language_supported align_output diarization
        alignFn diarizeFn result =
      if language_supported && align_output then alignFn result
      else if language_supported && !align_output && diarization then
        diarizeFn result
      else result := by
  cases language_supported <;> cases align_output <;> cases diarization <;>
    simp [post_transcribe]


/-! ### Temporary-file effects of the detection loop -/

/-- Filesystem events of a detection run.  `extract_audio_segment` writes one
temporary file per iteration via `tempfile.NamedTemporaryFile` (named here by
the iteration number) with the input's container `suffix`;
`detect_language` unlinks it right after `whisperx.load_audio` decodes it. -/
inductive FsEvent where
  | create (iteration : Nat) (suffix : String)
  | delete (iteration : Nat) (suffix : String)
deriving Repr, DecidableEq

/-- Outcome of the external library calls of one detection iteration, keyed to
their position relative to the temporary file's lifetime in `src/predict.py`:

* `ok` — every external call of the iteration succeeds;
* `raiseBeforeCreate` — `whisperx.load_model` (line 179) or
  `AudioSegment.from_file` (line 219) raises, before
  `tempfile.NamedTemporaryFile` has created the temporary file;
* `raiseBetweenCreateAndUnlink` — `extracted_segment.export` (line 228)
  or `whisperx.load_audio` (line 186) raises after the temporary file exists
  on disk and before the `unlink()` at line 188 (there is no
  `try/finally` around this window);
* `raiseAfterDelete` — the spectrogram/encoder/language-id calls
  (lines 190–196) raise, after the `unlink()`.

An exception propagates uncaught and aborts the whole run (`none`). -/
inductive ExtOutcome where
  | ok
  | raiseBeforeCreate
  | raiseBetweenCreateAndUnlink
  | raiseAfterDelete
deriving Repr, DecidableEq

/-- `detect_language` instrumented with its filesystem trace and with the
failure behaviour of the external calls of each iteration (`ext`).  An
iteration that reaches `extract_audio_segment`'s `NamedTemporaryFile` emits
`create` (the temporary segment file, with the input file's suffix); the
`unlink` right after the slice is decoded emits `delete`.  A
`raiseBetweenCreateAndUnlink` outcome aborts the run after `create` and before
`delete`, leaving the file on disk.  The failing lookup
`segments_starts[iteration - 1]` happens before any file is written in that
iteration (the branch order of a `raiseBeforeCreate` against a failing lookup
is immaterial: both abort with no event). -/
def detect_language_fs (segments_starts : List Int) (oracle : Int → String × ℚ)
    (language_detection_min_prob : ℚ) (language_detection_max_tries : Int)
    (suffix : String) (ext : Nat → ExtOutcome) (iteration : Nat) :
    Option DetectionResult × List FsEvent :=
  match segments_starts.get? (iteration - 1) with
  | none => (none, [])
  | some start_ms =>
    match ext iteration with
    | ExtOutcome.raiseBeforeCreate => (none, [])
    | ExtOutcome.raiseBetweenCreateAndUnlink =>
        (none, [FsEvent.create iteration suffix])
    | ExtOutcome.raiseAfterDelete =>
        (none, [FsEvent.create iteration suffix, FsEvent.delete iteration suffix])
    | ExtOutcome.ok =>
      if language_detection_min_prob ≤ (oracle start_ms).2 ∨
          language_detection_max_tries ≤ (iteration : Int) then
        (some ⟨(oracle start_ms).1, (oracle start_ms).2, iteration⟩,
          [FsEvent.create iteration suffix, FsEvent.delete iteration suffix])
      else
        let rest := detect_language_fs segments_starts oracle
          language_detection_min_prob language_detection_max_tries suffix ext
          (iteration + 1)
        (rest.1, FsEvent.create iteration suffix ::
          FsEvent.delete iteration suffix :: rest.2)
termination_by (language_detection_max_tries + 1 - (iteration : Int)).toNat
decreasing_by
  rename_i hcond
  push_neg at hcond
  omega

/-- Replaying a filesystem trace over the set of live temporary files:
`create` adds a file, `delete` removes it. -/
def replayFs (files : List (Nat × String)) : List FsEvent → List (Nat × String)
  | [] => files
  | FsEvent.create k sfx :: evs => replayFs (files ++ [(k, sfx)]) evs
  | FsEvent.delete k sfx :: evs =>
      replayFs (files.filter (fun f => f != (k, sfx))) evs

/-- The instrumented detector aborts with no filesystem events when the
offset lookup fails. -/
lemma detect_language_fs_none (starts : List Int) (oracle : Int → String × ℚ)
    (p : ℚ) (m : Int) (suffix : String) (ext : Nat → ExtOutcome) (it : Nat)
    (hs : starts.get? (it - 1) = none) :
    detect_language_fs starts oracle p m suffix ext it = (none, []) := by
  rw [detect_language_fs, hs]

/-- One unfolding step of the instrumented detector when the lookup succeeds
and the iteration's external calls succeed. -/
lemma detect_language_fs_step_ok (starts : List Int) (oracle : Int → String × ℚ)
    (p : ℚ) (m : Int) (suffix : String) (ext : Nat → ExtOutcome) (it : Nat)
    (s : Int) (hs : starts.get? (it - 1) = some s)
    (hok : ext it = ExtOutcome.ok) :
    detect_language_fs starts oracle p m suffix ext it =
      if p ≤ (oracle s).2 ∨ m ≤ (it : Int) then
        (some ⟨(oracle s).1, (oracle s).2, it⟩,
          [FsEvent.create it suffix, FsEvent.delete it suffix])
      else
        ((detect_language_fs starts oracle p m suffix ext (it + 1)).1,
          FsEvent.create it suffix :: FsEvent.delete it suffix ::
            (detect_language_fs starts oracle p m suffix ext (it + 1)).2) := by
  rw [detect_language_fs, hs, hok]

/-- An iteration whose externals raise before the temporary file is created
aborts the run with no filesystem event. -/
lemma detect_language_fs_step_beforeCreate (starts : List Int)
    (oracle : Int → String × ℚ) (p : ℚ) (m : Int) (suffix : String)
    (ext : Nat → ExtOutcome) (it : Nat) (s : Int)
    (hs : starts.get? (it - 1) = some s)
    (hx : ext it = ExtOutcome.raiseBeforeCreate) :
    detect_language_fs starts oracle p m suffix ext it = (none, []) := by
  rw [detect_language_fs, hs, hx]

/-- An iteration whose externals raise between the temporary file's creation
and its unlink aborts the run with the file still on disk: the trace ends in
an unmatched `create`. -/
lemma detect_language_fs_step_between (starts : List Int)
    (oracle : Int → String × ℚ) (p : ℚ) (m : Int) (suffix : String)
    (ext : Nat → ExtOutcome) (it : Nat) (s : Int)
    (hs : starts.get? (it - 1) = some s)
    (hx : ext it = ExtOutcome.raiseBetweenCreateAndUnlink) :
    detect_language_fs starts oracle p m suffix ext it =
      (none, [FsEvent.create it suffix]) := by
  rw [detect_language_fs, hs, hx]

/-- An iteration whose externals raise after the unlink aborts the run with
the temporary file already deleted. -/
lemma detect_language_fs_step_afterDelete (starts : List Int)
    (oracle : Int → String × ℚ) (p : ℚ) (m : Int) (suffix : String)
    (ext : Nat → ExtOutcome) (it : Nat) (s : Int)
    (hs : starts.get? (it - 1) = some s)
    (hx : ext it = ExtOutcome.raiseAfterDelete) :
    detect_language_fs starts oracle p m suffix ext it =
      (none, [FsEvent.create it suffix, FsEvent.delete it suffix]) := by
  rw [detect_language_fs, hs, hx]

/-- Characterisation of the instrumented detector when no evaluated iteration
raises between the temporary file's creation and its unlink: the trace is a
full `create k; delete k` block per iteration that reached extraction, all
with the input's suffix, and when every external call succeeds the computed
result agrees with `detect_language`. -/
lemma detect_language_fs_spec (starts : List Int) (oracle : Int → String × ℚ)
    (p : ℚ) (m : Int) (suffix : String) (ext : Nat → ExtOutcome)
    (hext : ∀ k, ext k ≠ ExtOutcome.raiseBetweenCreateAndUnlink) :
    ∀ (fuel it : Nat), (m - it).toNat ≤ fuel →
      ((∀ k, ext k = ExtOutcome.ok) →
        (detect_language_fs starts oracle p m suffix ext it).1 =
          detect_language starts oracle p m it) ∧
      ∃ n : Nat,
        (detect_language_fs starts oracle p m suffix ext it).2 =
          (List.range' it n).flatMap
            (fun k => [FsEvent.create k suffix, FsEvent.delete k suffix]) := by
  intro fuel
  induction fuel with
  | zero =>
    intro it hf
    cases hs : starts.get? (it - 1) with
    | none =>
      rw [detect_language_fs_none starts oracle p m suffix ext it hs]
      exact ⟨fun _ => by rw [detect_language_none starts oracle p m it hs], 0, rfl⟩
    | some s =>
      cases hx : ext it with
      | ok =>
        have hacc : p ≤ (oracle s).2 ∨ m ≤ (it : Int) := Or.inr (by omega)
        rw [detect_language_fs_step_ok starts oracle p m suffix ext it s hs hx,
          if_pos hacc]
        exact ⟨fun _ => by
            rw [detect_language_step starts oracle p m it s hs, if_pos hacc],
          1, rfl⟩
      | raiseBeforeCreate =>
        rw [detect_language_fs_step_beforeCreate starts oracle p m suffix ext
          it s hs hx]
        refine ⟨fun hok => ?_, 0, rfl⟩
        rw [hok it] at hx
        cases hx
      | raiseBetweenCreateAndUnlink => exact absurd hx (hext it)
      | raiseAfterDelete =>
        rw [detect_language_fs_step_afterDelete starts oracle p m suffix ext
          it s hs hx]
        refine ⟨fun hok => ?_, 1, rfl⟩
        rw [hok it] at hx
        cases hx
  | succ n ih =>
    intro it hf
    cases hs : starts.get? (it - 1) with
    | none =>
      rw [detect_language_fs_none starts oracle p m suffix ext it hs]
      exact ⟨fun _ => by rw [detect_language_none starts oracle p m it hs], 0, rfl⟩
    | some s =>
      cases hx : ext it with
      | ok =>
        rw [detect_language_fs_step_ok starts oracle p m suffix ext it s hs hx]
        by_cases hacc : p ≤ (oracle s).2 ∨ m ≤ (it : Int)
        · rw [if_pos hacc]
          exact ⟨fun _ => by
              rw [detect_language_step starts oracle p m it s hs, if_pos hacc],
            1, rfl⟩
        · rw [if_neg hacc]
          have hlt : (it : Int) < m := by push_neg at hacc; exact hacc.2
          obtain ⟨h1, nn, h2⟩ := ih (it + 1) (by omega)
          refine ⟨fun hok => ?_, nn + 1, ?_⟩
          · rw [detect_language_step starts oracle p m it s hs, if_neg hacc]
            exact h1 hok
          · rw [List.range'_succ, List.flatMap_cons, h2]
            rfl
      | raiseBeforeCreate =>
        rw [detect_language_fs_step_beforeCreate starts oracle p m suffix ext
          it s hs hx]
        refine ⟨fun hok => ?_, 0, rfl⟩
        rw [hok it] at hx
        cases hx
      | raiseBetweenCreateAndUnlink => exact absurd hx (hext it)
      | raiseAfterDelete =>
        rw [detect_language_fs_step_afterDelete starts oracle p m suffix ext
          it s hs hx]
        refine ⟨fun hok => ?_, 1, rfl⟩
        rw [hok it] at hx
        cases hx

/-- Replaying any sequence of per-iteration `create; delete` blocks from an
empty filesystem leaves no files. -/
lemma replayFs_blocks (suffix : String) :
    ∀ (n it : Nat),
      replayFs [] ((List.range' it n).flatMap
        (fun k => [FsEvent.create k suffix, FsEvent.delete k suffix])) = [] := by
  intro n
  induction n with
  | zero => intro it; rfl
  | succ n ih =>
    intro it
    rw [List.range'_succ, List.flatMap_cons]
    show replayFs [] (FsEvent.create it suffix :: FsEvent.delete it suffix :: _) = []
    rw [replayFs, replayFs]
    simp only [List.nil_append, List.filter_cons, bne_self_eq_false, List.filter_nil]
    exact ih (it + 1)

/-- Counterexample to C9 as stated: on a one-window file whose first
iteration's `load_audio` (or `export`) raises between the temporary file's
creation and its unlink, the run aborts with the temporary segment file still
on the filesystem. -/
theorem detect_language_fs_residue_counterexample :
    (detect_language_fs [0] exampleOracle 0 5 ".mp3"
        (fun _ => ExtOutcome.raiseBetweenCreateAndUnlink) 1).2 =
      [FsEvent.create 1 ".mp3"] ∧
    replayFs []
      (detect_language_fs [0] exampleOracle 0 5 ".mp3"
        (fun _ => ExtOutcome.raiseBetweenCreateAndUnlink) 1).2 =
      [(1, ".mp3")] := by
  rw [detect_language_fs_step_between [0] exampleOracle 0 5 ".mp3"
    (fun _ => ExtOutcome.raiseBetweenCreateAndUnlink) 1 0 rfl rfl]
  exact ⟨rfl, rfl⟩

/-- C9 (amended): a detection iteration that reaches extraction writes exactly
one temporary file, carrying the input's container suffix and deleted
immediately after its slice is decoded; provided no evaluated iteration's
external calls raise between the file's creation and its unlink, the run —
whether it returns a result or aborts on the failed offset lookup, before a
file is created, or after a deletion — leaves no temporary file created by the
run on the filesystem, and with all external calls succeeding the instrumented
run computes the same result as `detect_language`. -/
theorem detect_language_fs_no_residue (starts : List Int)
    (oracle : Int → String × ℚ) (p : ℚ) (m : Int) (suffix : String)
    (ext : Nat → ExtOutcome)
    (hext : ∀ k, ext k ≠ ExtOutcome.raiseBetweenCreateAndUnlink) :
    ((∀ k, ext k = ExtOutcome.ok) →
      (detect_language_fs starts oracle p m suffix ext 1).1 =
        detect_language starts oracle p m 1) ∧
    (∃ n : Nat, (detect_language_fs starts oracle p m suffix ext 1).2 =
        (List.range' 1 n).flatMap
          (fun k => [FsEvent.create k suffix, FsEvent.delete k suffix])) ∧
    replayFs [] (detect_language_fs starts oracle p m suffix ext 1).2 = [] := by
  obtain ⟨h1, n, h2⟩ :=
    detect_language_fs_spec starts oracle p m suffix ext hext (m - 1).toNat 1
      (by omega)
  exact ⟨h1, ⟨n, h2⟩, by rw [h2]; exact replayFs_blocks suffix n 1⟩

/-- Witness for the amended C9: a complete three-window run with succeeding
external calls leaves no temporary files. -/
theorem detect_language_fs_no_residue_witness :
    replayFs []
      (detect_language_fs [0, 1, 2] exampleOracle (1/2) 3 ".wav"
        (fun _ => ExtOutcome.ok) 1).2 = [] :=
  (detect_language_fs_no_residue [0, 1, 2] exampleOracle (1/2) 3 ".wav"
      (fun _ => ExtOutcome.ok) (fun k h => by cases h)).2.2
